import Mathlib

/-!
Verification of the codecount line classifier (codecount.go).

Shallow embedding conventions:
* Go strings are modelled as `List Char`; indices are character positions
  (Go uses byte indices; the two agree on ASCII input, and the repository's
  spec explicitly excludes multi-byte column semantics).
* `strings.TrimSpace` is modelled over the ASCII whitespace characters
  (space, tab, newline, vertical tab, form feed, carriage return).
* `strings.LastIndex` is modelled character-wise, including Go's convention
  that the last index of the empty substring in `s` is `s.length`, and `-1`
  when the substring does not occur.
* `os.FileInfo` is reduced to the one field the program reads: `Size()`,
  modelled as the `size : Nat` field of `File`.
* IO is made explicit: a `FileContent` value says whether `os.Open` fails,
  which complete lines the `bufio.Scanner` delivers with `Err()` still nil,
  and how the iteration then ends (`ReadEnd`). A non-EOF read error can end
  it two ways: if a partial line is buffered when the error arrives, `Scan`
  returns `true` once more with `Err()` already set, so the error check at
  the top of the loop body panics before that line is processed; if the
  error falls exactly on a line boundary (empty buffer), `Scan` just
  returns `false`, the loop ends, and the error is never looked at again.
  A `panic` in the Go program propagates uncaught through `filepath.Walk`
  and `main` and terminates the process; `ScanOutcome.panicked` and the
  `none` result of `processAll` model that termination.
-/

namespace Codecount

/-- ASCII whitespace, as trimmed by `strings.TrimSpace` on ASCII input. -/
def isSpaceChar (c : Char) : Bool :=
  c = ' ' || c = '\t' || c = '\n' || c = '\x0b' || c = '\x0c' || c = '\r'

/-- Go `strings.TrimSpace`: drop leading and trailing whitespace. -/
def trimSpace (s : List Char) : List Char :=
  ((s.dropWhile isSpaceChar).reverse.dropWhile isSpaceChar).reverse

/-- Go `strings.HasPrefix s p`. -/
def hasPrefix (s p : List Char) : Bool :=
  p.isPrefixOf s

/-- Go `strings.LastIndex s substr`: index of the last occurrence of
`substr` in `s`, `-1` if absent; the empty substring matches at `s.length`. -/
def lastIndex (s substr : List Char) : Int :=
  match ((List.range (s.length + 1)).filter
      (fun i => substr.isPrefixOf (s.drop i))).getLast? with
  | some i => (i : Int)
  | none => -1

/-- Go `strings.ToLower`, restricted to ASCII case mapping. -/
def toLowerStr (s : List Char) : List Char :=
  s.map Char.toLower

/-- Helper for `pathExt`: walk the reversed path; `acc` holds the characters
already passed, in original order. Stops at a path separator. -/
def pathExtAux : List Char → List Char → List Char
  | [], _ => []
  | c :: rest, acc =>
    if c = '/' then []
    else if c = '.' then c :: acc
    else pathExtAux rest (c :: acc)

/-- Go `filepath.Ext`: the suffix beginning at the final dot in the final
path element, empty if there is no dot. -/
def pathExt (path : List Char) : List Char :=
  pathExtAux path.reverse []

/-- The `Language` struct of codecount.go. -/
structure Language where
  name : List Char
  extension : List (List Char)
  openblock : List Char
  closeblock : List Char
  comment : List Char
  endmark : List Char
deriving Repr, DecidableEq

/-- The Go zero value of `Language` (what a failed map lookup returns). -/
def zeroLanguage : Language :=
  { name := [], extension := [], openblock := [], closeblock := [],
    comment := [], endmark := [] }

/-- The `languages` table of codecount.go, in declaration order. -/
def languages : List Language :=
  [ ⟨"Assembly".toList, [".s".toList], [], [], ";".toList, []⟩,
    ⟨"Batch".toList, [".bat".toList], [], [], "REM".toList, []⟩,
    ⟨"C".toList, [".c".toList], "/*".toList, "*/".toList, "//".toList, []⟩,
    ⟨"C++".toList, [".cpp".toList], "/*".toList, "*/".toList, "//".toList, []⟩,
    ⟨"C/C++ Header".toList, [".h".toList], "/*".toList, "*/".toList, "//".toList, []⟩,
    ⟨"CSS".toList, [".css".toList], "/*".toList, "*/".toList, [], []⟩,
    ⟨"C#".toList, [".cs".toList], "/*".toList, "*/".toList, "//".toList, []⟩,
    ⟨"Go".toList, [".go".toList], "/*".toList, "*/".toList, "//".toList, []⟩,
    ⟨"HTML".toList, [".html".toList, ".htm".toList], [], [], [], []⟩,
    ⟨"Java".toList, [".java".toList], "/*".toList, "*/".toList, "//".toList, []⟩,
    ⟨"Javascript".toList, [".js".toList], "/*".toList, "*/".toList, "//".toList, []⟩,
    ⟨"JSON".toList, [".json".toList], [], [], [], []⟩,
    ⟨"Markdown".toList, [".md".toList], [], [], [], []⟩,
    ⟨"Perl".toList, [".pl".toList], "/*".toList, "*/".toList, "//".toList, "__END__".toList⟩,
    ⟨"PHP".toList, [".php".toList], "/*".toList, "*/".toList, "//".toList, "__halt_compiler()".toList⟩,
    ⟨"Python".toList, [".py".toList, ".pyw".toList], [], [], "#".toList, []⟩,
    ⟨"RestructuredText".toList, [".rst".toList], [], [], [], []⟩,
    ⟨"RPGLE".toList, [".rpgle".toList], [], [], [], []⟩,
    ⟨"Ruby".toList, [".rb".toList], "/*".toList, "*/".toList, "#".toList, "__END__".toList⟩,
    ⟨"Rust".toList, [".rs".toList], "/*".toList, "*/".toList, "//".toList, []⟩,
    ⟨"SQL".toList, [".sql".toList], "/*".toList, "*/".toList, [], []⟩,
    ⟨"TCL".toList, [".tcl".toList], [], [], "#".toList, []⟩,
    ⟨"Text".toList, [".txt".toList], [], [], [], []⟩,
    ⟨"VB".toList, [".vb".toList, ".mac".toList, ".frm".toList, ".frx".toList, ".bas".toList],
      "/*".toList, "*/".toList, "'".toList, []⟩,
    ⟨"XML".toList, [".xml".toList, ".xss".toList, ".xsc".toList, ".xsd".toList, ".xsx".toList],
      [], [], [], []⟩ ]

/-- The bindings inserted into the Go `extensions` map, in insertion order. -/
def extensions : List (List Char × Language) :=
  languages.foldl (fun acc lang => acc ++ lang.extension.map (fun e => (e, lang))) []

/-- Lookup in the `extensions` map. A Go map insert overwrites, so the last
binding in insertion order wins. -/
def extensionsFind (ext : List Char) : Option Language :=
  ((extensions.filter (fun p => p.1 == ext)).getLast?).map (fun p => p.2)

/-- Go map indexing `extensions[ext]`: the bound value, or the zero value. -/
def extensionsGet (ext : List Char) : Language :=
  (extensionsFind ext).getD zeroLanguage

/-- The scanner states NORMAL / BLOCK / END of codecount.go. -/
inductive ScanState where
  | NORMAL
  | BLOCK
  | END
deriving Repr, DecidableEq

/-- The `File` struct of codecount.go (`info` reduced to its size). -/
structure File where
  path : List Char
  size : Nat
  lang : Language
  scanned : Bool
  lines : Nat
  comments : Nat
  blanks : Nat
  code : Nat
deriving Repr, DecidableEq

/-- The `File` value built by `walkFunc`: path and size set, all else zero. -/
def initFile (path : List Char) (size : Nat) : File :=
  { path := path, size := size, lang := zeroLanguage, scanned := false,
    lines := 0, comments := 0, blanks := 0, code := 0 }

/-- The body of the scan loop of codecount.go for one delivered line:
count the line, classify it, and move the state machine. -/
def scanStep (lang : Language) (acc : ScanState × File) (line_orig : List Char) :
    ScanState × File :=
  match acc with
  | (state, file0) =>
    let file := { file0 with lines := file0.lines + 1 }
    let line := trimSpace line_orig
    if line = [] then
      (state, { file with blanks := file.blanks + 1 })
    else
      match state with
      | ScanState.NORMAL =>
        if hasPrefix line lang.comment = true ∧ lang.comment ≠ [] then
          (ScanState.NORMAL, { file with comments := file.comments + 1 })
        else if hasPrefix line lang.endmark = true ∧ lang.endmark ≠ [] then
          (ScanState.END, { file with comments := file.comments + 1 })
        else if lang.openblock ≠ [] ∧ lang.closeblock ≠ [] then
          let spos := lastIndex line lang.openblock
          let epos := lastIndex line lang.closeblock
          if spos > epos ∧ spos > 1 then
            (ScanState.BLOCK, { file with code := file.code + 1 })
          else if spos > epos then
            (ScanState.BLOCK, { file with comments := file.comments + 1 })
          else if spos < epos ∧ spos > -1 then
            (ScanState.NORMAL, { file with comments := file.comments + 1 })
          else
            (ScanState.NORMAL, { file with code := file.code + 1 })
        else
          (ScanState.NORMAL, { file with code := file.code + 1 })
      | ScanState.BLOCK =>
        let spos := lastIndex line lang.openblock
        let epos := lastIndex line lang.closeblock
        if spos < epos ∧ epos ≠ -1 then
          (ScanState.NORMAL, { file with comments := file.comments + 1 })
        else
          (ScanState.BLOCK, { file with comments := file.comments + 1 })
      | ScanState.END =>
        (ScanState.END, { file with comments := file.comments + 1 })

/-- How the line iteration of `bufio.Scanner` ends after the delivered
complete lines. -/
inductive ReadEnd where
  /-- Normal end of input. -/
  | eof
  /-- A non-EOF read error arriving exactly at a line boundary: the buffer
  is empty, so `Scan` returns `false` and the loop ends silently (the code
  never consults `Err()` after the loop). -/
  | errAtBoundary
  /-- A non-EOF read error arriving with a partial line buffered: `Scan`
  returns `true` once more with `Err()` already set, so the check at the
  top of the loop body panics before the partial line is processed. -/
  | errMidLine
deriving Repr, DecidableEq

/-- What the OS delivers for one file: whether `os.Open` fails, the
complete lines the `bufio.Scanner` hands over with `Err()` still nil, and
how the iteration then ends. -/
structure FileContent where
  openError : Bool
  contentLines : List (List Char)
  readEnd : ReadEnd
deriving Repr, DecidableEq

/-- Result of running `File.scan`: either the updated record, or an
uncaught `panic` that will terminate the whole process. -/
inductive ScanOutcome where
  | panicked
  | done (f : File)
deriving Repr, DecidableEq

/-- The `scan` method of codecount.go. Resolves the language from the
lowercased extension, short-circuits unknown or empty files, panics if the
file cannot be opened, and otherwise folds the classifier over the lines
the scanner delivers. A read error with a partial line buffered makes the
in-loop `Err()` check panic — the counts accumulated so far are abandoned
with the record, so the panic is the only observable outcome. A read error
falling on a line boundary just ends the loop, so the record is completed
with `scanned = true` over the delivered lines and the error is never
surfaced. -/
def File.scan (file : File) (c : FileContent) : ScanOutcome :=
  let lang := extensionsGet (toLowerStr (pathExt file.path))
  let file1 := { file with lang := lang }
  if lang.name = [] ∨ file1.size = 0 then
    ScanOutcome.done { file1 with scanned := false }
  else if c.openError = true then
    ScanOutcome.panicked
  else if c.readEnd = ReadEnd.errMidLine then
    ScanOutcome.panicked
  else
    ScanOutcome.done
      { (c.contentLines.foldl (scanStep lang) (ScanState.NORMAL, file1)).2 with
        scanned := true }

/-- `filepath.Walk` driving `walkFunc` over the candidate regular files:
a file is selected when its raw (not lowercased) extension is a key of the
`extensions` map; selected files are scanned and appended. An uncaught
panic during a scan terminates the whole run (`none`). -/
def processAll : List ((List Char × Nat) × FileContent) → Option (List File)
  | [] => some []
  | ((path, size), c) :: rest =>
    if (extensionsFind (pathExt path)).isSome = true then
      match (initFile path size).scan c with
      | ScanOutcome.panicked => none
      | ScanOutcome.done f => (processAll rest).map (fun fs => f :: fs)
    else
      processAll rest

/-- Run the classifier loop alone over a line sequence with a given rule,
starting in NORMAL state from a fresh record. -/
def runLines (lang : Language) (ls : List (List Char)) : ScanState × File :=
  ls.foldl (scanStep lang) (ScanState.NORMAL, initFile [] 1)

/-! ## Helper lemmas -/

/-- One classifier step adds exactly one to `lines` and exactly one to one
of `code`, `comments`, `blanks`, and touches no other field but `lang`-free
bookkeeping, so it preserves the count invariant. -/
theorem scanStep_preserves_inv (lang : Language) (p : ScanState × File) (l : List Char)
    (h : p.2.lines = p.2.code + p.2.comments + p.2.blanks) :
    (scanStep lang p l).2.lines =
      (scanStep lang p l).2.code + (scanStep lang p l).2.comments +
        (scanStep lang p l).2.blanks := by
  obtain ⟨st, f⟩ := p
  dsimp only at h
  simp only [scanStep]
  cases st <;> dsimp only <;> (repeat' split) <;> simp <;> omega

/-- Folding the classifier over any line list preserves the count invariant. -/
theorem scanFold_preserves_inv (lang : Language) (ls : List (List Char)) :
    ∀ p : ScanState × File, p.2.lines = p.2.code + p.2.comments + p.2.blanks →
      (ls.foldl (scanStep lang) p).2.lines =
        (ls.foldl (scanStep lang) p).2.code + (ls.foldl (scanStep lang) p).2.comments +
          (ls.foldl (scanStep lang) p).2.blanks := by
  induction ls with
  | nil => intro p h; simpa using h
  | cons l ls ih =>
    intro p h
    rw [List.foldl_cons]
    exact ih _ (scanStep_preserves_inv lang p l h)

/-- A step taken in END state: the state stays END; the line is counted as
blank if all whitespace, as comment otherwise. -/
theorem scanStep_end (lang : Language) (f : File) (l : List Char) :
    scanStep lang (ScanState.END, f) l =
      (ScanState.END,
        if trimSpace l = [] then { f with lines := f.lines + 1, blanks := f.blanks + 1 }
        else { f with lines := f.lines + 1, comments := f.comments + 1 }) := by
  simp only [scanStep]
  split <;> rfl

/-- Folding from END state: the state stays END, every line adds to `lines`,
blank lines add to `blanks`, non-blank lines add to `comments`. -/
theorem scanFold_end (lang : Language) (ls : List (List Char)) :
    ∀ f : File,
      ls.foldl (scanStep lang) (ScanState.END, f) =
        (ScanState.END,
          { f with
              lines := f.lines + ls.length,
              comments := f.comments + ls.countP (fun l => !(trimSpace l).isEmpty),
              blanks := f.blanks + ls.countP (fun l => (trimSpace l).isEmpty) }) := by
  induction ls with
  | nil => intro f; simp
  | cons l ls ih =>
    intro f
    rw [List.foldl_cons, scanStep_end]
    by_cases hc : trimSpace l = []
    · simp only [hc, if_pos]
      rw [ih]
      simp [List.countP_cons, hc, Prod.mk.injEq, File.mk.injEq]
      omega
    · rw [if_neg hc, ih]
      simp only [Prod.mk.injEq, File.mk.injEq, List.countP_cons, List.length_cons]
      have hne : (trimSpace l).isEmpty = false := by
        simp [List.isEmpty_iff, hc]
      simp [hne]
      omega

/-- The Go language rule of the `languages` table, used as a concrete rule
in witnesses. -/
def langGo : Language :=
  ⟨"Go".toList, [".go".toList], "/*".toList, "*/".toList, "//".toList, []⟩

/-! ## Claims -/

/-- C1: for every file record produced by `scan` with `scanned = true`, the
total line count equals the sum of the code, comment, and blank counts,
for every input line sequence and every language rule resolved for the path. -/
theorem C1_lines_eq_sum (path : List Char) (size : Nat) (c : FileContent) (f : File)
    (hdone : (initFile path size).scan c = ScanOutcome.done f)
    (hs : f.scanned = true) :
    f.lines = f.code + f.comments + f.blanks := by
  simp only [File.scan] at hdone
  split at hdone
  · cases hdone
    simp [initFile]
  · split at hdone
    · simp at hdone
    · split at hdone
      · simp at hdone
      · cases hdone
        have h := scanFold_preserves_inv (extensionsGet (toLowerStr (pathExt path)))
          c.contentLines
          (ScanState.NORMAL,
            { initFile path size with lang := extensionsGet (toLowerStr (pathExt path)) })
          (by simp [initFile])
        simpa using h

/-- Witness for C1 at a concrete one-line Go file. -/
theorem C1_lines_eq_sum_witness :
    (initFile ("a.go".toList) 5).scan ⟨false, [['x']], ReadEnd.eof⟩ =
        ScanOutcome.done
          { path := "a.go".toList, size := 5, lang := langGo, scanned := true,
            lines := 1, comments := 0, blanks := 0, code := 1 } ∧
      ({ path := "a.go".toList, size := 5, lang := langGo, scanned := true,
         lines := 1, comments := 0, blanks := 0, code := 1 } : File).lines =
        ({ path := "a.go".toList, size := 5, lang := langGo, scanned := true,
           lines := 1, comments := 0, blanks := 0, code := 1 } : File).code +
          ({ path := "a.go".toList, size := 5, lang := langGo, scanned := true,
             lines := 1, comments := 0, blanks := 0, code := 1 } : File).comments +
          ({ path := "a.go".toList, size := 5, lang := langGo, scanned := true,
             lines := 1, comments := 0, blanks := 0, code := 1 } : File).blanks :=
  ⟨by decide,
    C1_lines_eq_sum ("a.go".toList) 5 ⟨false, [['x']], ReadEnd.eof⟩ _
      (by decide) (by decide)⟩

/-- C3: a line that is empty after trimming whitespace increments `blanks`
by one and leaves the state unchanged, in every state and for every rule;
it is never counted as a comment. -/
theorem C3_blank_precedence (lang : Language) (st : ScanState) (f : File) (l : List Char)
    (h : trimSpace l = []) :
    scanStep lang (st, f) l =
      (st, { f with lines := f.lines + 1, blanks := f.blanks + 1 }) := by
  simp [scanStep, h]

/-- Witness for C3: an all-whitespace line in BLOCK state. -/
theorem C3_blank_precedence_witness :
    trimSpace [' ', '\t'] = [] ∧
      scanStep langGo (ScanState.BLOCK, initFile [] 1) [' ', '\t'] =
        (ScanState.BLOCK,
          { initFile [] 1 with
              lines := (initFile [] 1).lines + 1,
              blanks := (initFile [] 1).blanks + 1 }) :=
  ⟨by decide, C3_blank_precedence langGo ScanState.BLOCK (initFile [] 1) [' ', '\t'] (by decide)⟩

/-- C5: in BLOCK state every non-blank line is counted as a comment (never
code), and the state returns to NORMAL exactly when
`spos < epos ∧ epos ≠ -1` for the last occurrences of the block markers. -/
theorem C5_block_always_comment (lang : Language) (f : File) (l : List Char)
    (h : trimSpace l ≠ []) :
    scanStep lang (ScanState.BLOCK, f) l =
      (if lastIndex (trimSpace l) lang.openblock < lastIndex (trimSpace l) lang.closeblock ∧
           lastIndex (trimSpace l) lang.closeblock ≠ -1
         then ScanState.NORMAL else ScanState.BLOCK,
       { f with lines := f.lines + 1, comments := f.comments + 1 }) := by
  simp only [scanStep, if_neg h]
  split <;> simp_all

/-- Witness for C5: a line closing the block with code after the marker. -/
theorem C5_block_always_comment_witness :
    trimSpace ("*/ code".toList) ≠ [] ∧
      scanStep langGo (ScanState.BLOCK, initFile [] 1) ("*/ code".toList) =
        (if lastIndex (trimSpace ("*/ code".toList)) langGo.openblock <
               lastIndex (trimSpace ("*/ code".toList)) langGo.closeblock ∧
             lastIndex (trimSpace ("*/ code".toList)) langGo.closeblock ≠ -1
           then ScanState.NORMAL else ScanState.BLOCK,
         { initFile [] 1 with
             lines := (initFile [] 1).lines + 1,
             comments := (initFile [] 1).comments + 1 }) :=
  ⟨by decide, C5_block_always_comment langGo (initFile [] 1) ("*/ code".toList) (by decide)⟩

/-- C6: once the scanner is in END state it never leaves it for the rest of
the file, and every non-blank line seen there is counted as a comment; the
state is entered from NORMAL on a non-blank line that starts with the
non-empty end-of-file marker (and is not caught by the line-comment rule). -/
theorem C6_end_terminal (lang : Language) (f : File) (ls : List (List Char)) :
    (ls.foldl (scanStep lang) (ScanState.END, f)).1 = ScanState.END ∧
      (∀ l, trimSpace l ≠ [] →
        scanStep lang (ScanState.END, f) l =
          (ScanState.END, { f with lines := f.lines + 1, comments := f.comments + 1 })) ∧
      (∀ (l : List Char) (f' : File), trimSpace l ≠ [] →
        ¬(hasPrefix (trimSpace l) lang.comment = true ∧ lang.comment ≠ []) →
        hasPrefix (trimSpace l) lang.endmark = true → lang.endmark ≠ [] →
        scanStep lang (ScanState.NORMAL, f') l =
          (ScanState.END, { f' with lines := f'.lines + 1, comments := f'.comments + 1 })) := by
  refine ⟨?_, ?_, ?_⟩
  · rw [scanFold_end]
  · intro l hl
    rw [scanStep_end, if_neg hl]
  · intro l f' hl hnc hpe hne
    simp only [scanStep, if_neg hl]
    rw [if_neg hnc, if_pos ⟨hpe, hne⟩]

/-- Witness for C6 on a concrete Perl-style rule and end-marker line. -/
theorem C6_end_terminal_witness :
    (( ["x".toList, "".toList].foldl
        (scanStep ⟨"Perl".toList, [".pl".toList], "/*".toList, "*/".toList,
          "//".toList, "__END__".toList⟩)
        (ScanState.END, initFile [] 1)).1 = ScanState.END) ∧
      scanStep ⟨"Perl".toList, [".pl".toList], "/*".toList, "*/".toList,
          "//".toList, "__END__".toList⟩ (ScanState.END, initFile [] 1) ("x".toList) =
        (ScanState.END,
          { initFile [] 1 with
              lines := (initFile [] 1).lines + 1,
              comments := (initFile [] 1).comments + 1 }) ∧
      scanStep ⟨"Perl".toList, [".pl".toList], "/*".toList, "*/".toList,
          "//".toList, "__END__".toList⟩ (ScanState.NORMAL, initFile [] 1)
          ("__END__".toList) =
        (ScanState.END,
          { initFile [] 1 with
              lines := (initFile [] 1).lines + 1,
              comments := (initFile [] 1).comments + 1 }) :=
  ⟨(C6_end_terminal _ (initFile [] 1) ["x".toList, "".toList]).1,
    (C6_end_terminal _ (initFile [] 1) []).2.1 ("x".toList) (by decide),
    (C6_end_terminal _ (initFile [] 1) []).2.2 ("__END__".toList) (initFile [] 1)
      (by decide) (by decide) (by decide) (by decide)⟩

/-- Every list is a prefix of itself. -/
theorem hasPrefix_refl (l : List Char) : hasPrefix l l = true := by
  induction l with
  | nil => rfl
  | cons c cs ih => simpa [hasPrefix, List.isPrefixOf] using ih

/-- C4: NORMAL-state dispatch on the last occurrences of the block markers,
for lines not caught by the line-comment or end-marker rules:
`spos > epos ∧ spos > 1` is code opening a block, `spos > epos ∧ spos ≤ 1`
is a comment opening a block, `spos < epos ∧ spos > -1` is a one-line block
comment staying NORMAL. -/
theorem C4_normal_block_dispatch (lang : Language) (f : File) (l : List Char)
    (hnb : trimSpace l ≠ [])
    (hnc : ¬(hasPrefix (trimSpace l) lang.comment = true ∧ lang.comment ≠ []))
    (hne : ¬(hasPrefix (trimSpace l) lang.endmark = true ∧ lang.endmark ≠ []))
    (hob : lang.openblock ≠ []) (hcb : lang.closeblock ≠ []) :
    (lastIndex (trimSpace l) lang.openblock > lastIndex (trimSpace l) lang.closeblock ∧
        lastIndex (trimSpace l) lang.openblock > 1 →
      scanStep lang (ScanState.NORMAL, f) l =
        (ScanState.BLOCK, { f with lines := f.lines + 1, code := f.code + 1 })) ∧
      (lastIndex (trimSpace l) lang.openblock > lastIndex (trimSpace l) lang.closeblock ∧
          lastIndex (trimSpace l) lang.openblock ≤ 1 →
        scanStep lang (ScanState.NORMAL, f) l =
          (ScanState.BLOCK, { f with lines := f.lines + 1, comments := f.comments + 1 })) ∧
      (lastIndex (trimSpace l) lang.openblock < lastIndex (trimSpace l) lang.closeblock ∧
          lastIndex (trimSpace l) lang.openblock > -1 →
        scanStep lang (ScanState.NORMAL, f) l =
          (ScanState.NORMAL, { f with lines := f.lines + 1, comments := f.comments + 1 })) := by
  refine ⟨?_, ?_, ?_⟩ <;> intro hc <;>
    simp only [scanStep, if_neg hnb] <;>
    rw [if_neg hnc, if_neg hne, if_pos ⟨hob, hcb⟩]
  · rw [if_pos hc]
  · rw [if_neg (by omega : ¬(lastIndex (trimSpace l) lang.openblock >
        lastIndex (trimSpace l) lang.closeblock ∧
        lastIndex (trimSpace l) lang.openblock > 1)),
      if_pos hc.1]
  · rw [if_neg (by omega : ¬(lastIndex (trimSpace l) lang.openblock >
        lastIndex (trimSpace l) lang.closeblock ∧
        lastIndex (trimSpace l) lang.openblock > 1)),
      if_neg (by omega : ¬(lastIndex (trimSpace l) lang.openblock >
        lastIndex (trimSpace l) lang.closeblock)),
      if_pos hc]

/-- Witness for C4, case (a): code with a trailing open marker. -/
theorem C4_normal_block_dispatch_witness :
    (lastIndex (trimSpace ("x(); /*".toList)) langGo.openblock >
          lastIndex (trimSpace ("x(); /*".toList)) langGo.closeblock ∧
        lastIndex (trimSpace ("x(); /*".toList)) langGo.openblock > 1) ∧
      scanStep langGo (ScanState.NORMAL, initFile [] 1) ("x(); /*".toList) =
        (ScanState.BLOCK,
          { initFile [] 1 with
              lines := (initFile [] 1).lines + 1,
              code := (initFile [] 1).code + 1 }) :=
  ⟨by decide,
    (C4_normal_block_dispatch langGo (initFile [] 1) ("x(); /*".toList)
        (by decide) (by decide) (by decide) (by decide) (by decide)).1 (by decide)⟩

/-- C8: a file whose (lowercased) extension is not in the table, or a
zero-byte file, comes back unscanned with all counts zero, and the result
does not depend on the file content: the line loop never runs. -/
theorem C8_skip_short_circuit (path : List Char) (size : Nat) (c : FileContent)
    (h : extensionsFind (toLowerStr (pathExt path)) = none ∨ size = 0) :
    (initFile path size).scan c =
      ScanOutcome.done
        { initFile path size with
            lang := extensionsGet (toLowerStr (pathExt path)), scanned := false } := by
  rcases h with h | h
  · simp [File.scan, extensionsGet, h, zeroLanguage, initFile]
  · simp [File.scan, h, initFile]

/-- Witness for C8 at an unregistered extension with non-trivial content. -/
theorem C8_skip_short_circuit_witness :
    (extensionsFind (toLowerStr (pathExt ("a.xyz".toList))) = none ∨ (7 : Nat) = 0) ∧
      (initFile ("a.xyz".toList) 7).scan ⟨false, [['x'], ['y']], ReadEnd.eof⟩ =
        ScanOutcome.done
          { initFile ("a.xyz".toList) 7 with
              lang := extensionsGet (toLowerStr (pathExt ("a.xyz".toList))),
              scanned := false } :=
  ⟨by decide,
    C8_skip_short_circuit ("a.xyz".toList) 7 ⟨false, [['x'], ['y']], ReadEnd.eof⟩
      (by decide)⟩

/-- With no line-comment, end-of-file, or block markers, a non-blank line in
NORMAL state falls through every branch and is counted as code. -/
theorem scanStep_noMarkers (lang : Language) (f : File) (l : List Char)
    (hl : lang.comment = []) (he : lang.endmark = []) (ho : lang.openblock = [])
    (hnb : trimSpace l ≠ []) :
    scanStep lang (ScanState.NORMAL, f) l =
      (ScanState.NORMAL, { f with lines := f.lines + 1, code := f.code + 1 }) := by
  simp only [scanStep, if_neg hnb]
  rw [if_neg (by simp [hl]), if_neg (by simp [he]), if_neg (by simp [ho])]

/-- Folding a rule with no markers from NORMAL state: the state never moves,
blank lines count as blanks, everything else as code. -/
theorem scanFold_noMarkers (lang : Language)
    (hl : lang.comment = []) (he : lang.endmark = []) (ho : lang.openblock = [])
    (ls : List (List Char)) :
    ∀ f : File,
      ls.foldl (scanStep lang) (ScanState.NORMAL, f) =
        (ScanState.NORMAL,
          { f with
              lines := f.lines + ls.length,
              code := f.code + ls.countP (fun l => !(trimSpace l).isEmpty),
              blanks := f.blanks + ls.countP (fun l => (trimSpace l).isEmpty) }) := by
  induction ls with
  | nil => intro f; simp
  | cons l ls ih =>
    intro f
    rw [List.foldl_cons]
    by_cases hc : trimSpace l = []
    · have hstep : scanStep lang (ScanState.NORMAL, f) l =
          (ScanState.NORMAL, { f with lines := f.lines + 1, blanks := f.blanks + 1 }) := by
        simp [scanStep, hc]
      rw [hstep, ih]
      simp [List.countP_cons, hc, Prod.mk.injEq, File.mk.injEq]
      omega
    · rw [scanStep_noMarkers lang f l hl he ho hc, ih]
      have hne : (trimSpace l).isEmpty = false := by
        simp [List.isEmpty_iff, hc]
      simp [List.countP_cons, hne, Prod.mk.injEq, File.mk.injEq]
      omega

/-- C10: for a rule with no line-comment, end-of-file, or block markers,
every non-blank line is code, the state stays NORMAL for the whole file,
and the comment count is zero. -/
theorem C10_no_markers_all_code (lang : Language)
    (hl : lang.comment = []) (he : lang.endmark = [])
    (ho : lang.openblock = []) (hc : lang.closeblock = [])
    (ls : List (List Char)) :
    (runLines lang ls).1 = ScanState.NORMAL ∧
      (runLines lang ls).2.comments = 0 ∧
      (runLines lang ls).2.code = ls.countP (fun l => !(trimSpace l).isEmpty) ∧
      (runLines lang ls).2.blanks = ls.countP (fun l => (trimSpace l).isEmpty) ∧
      (runLines lang ls).2.lines = ls.length := by
  unfold runLines
  rw [scanFold_noMarkers lang hl he ho ls]
  simp [initFile]

/-- Witness for C10 on the HTML rule of the shipped table. -/
theorem C10_no_markers_all_code_witness :
    (( ⟨"HTML".toList, [".html".toList, ".htm".toList], [], [], [], []⟩ :
          Language).comment = [] ∧
        (⟨"HTML".toList, [".html".toList, ".htm".toList], [], [], [], []⟩ :
          Language).endmark = []) ∧
      (runLines ⟨"HTML".toList, [".html".toList, ".htm".toList], [], [], [], []⟩
          ["<p>".toList, "".toList, "hi".toList]).1 = ScanState.NORMAL ∧
      (runLines ⟨"HTML".toList, [".html".toList, ".htm".toList], [], [], [], []⟩
          ["<p>".toList, "".toList, "hi".toList]).2.comments = 0 ∧
      (runLines ⟨"HTML".toList, [".html".toList, ".htm".toList], [], [], [], []⟩
          ["<p>".toList, "".toList, "hi".toList]).2.code =
        (["<p>".toList, "".toList, "hi".toList].countP
          (fun l => !(trimSpace l).isEmpty)) ∧
      (runLines ⟨"HTML".toList, [".html".toList, ".htm".toList], [], [], [], []⟩
          ["<p>".toList, "".toList, "hi".toList]).2.blanks =
        (["<p>".toList, "".toList, "hi".toList].countP
          (fun l => (trimSpace l).isEmpty)) ∧
      (runLines ⟨"HTML".toList, [".html".toList, ".htm".toList], [], [], [], []⟩
          ["<p>".toList, "".toList, "hi".toList]).2.lines =
        (["<p>".toList, "".toList, "hi".toList] : List (List Char)).length :=
  ⟨⟨by decide, by decide⟩,
    C10_no_markers_all_code _ (by decide) (by decide) (by decide) (by decide)
      ["<p>".toList, "".toList, "hi".toList]⟩

/-- One classifier step never touches the `lang` field. -/
theorem scanStep_lang_const (lang : Language) (p : ScanState × File) (l : List Char) :
    (scanStep lang p l).2.lang = p.2.lang := by
  obtain ⟨st, f⟩ := p
  simp only [scanStep]
  cases st <;> dsimp only <;> (repeat' split) <;> rfl

/-- The classifier fold never touches the `lang` field. -/
theorem scanFold_lang_const (lang : Language) (ls : List (List Char)) :
    ∀ p : ScanState × File, (ls.foldl (scanStep lang) p).2.lang = p.2.lang := by
  induction ls with
  | nil => intro p; rfl
  | cons l ls ih =>
    intro p
    rw [List.foldl_cons, ih]
    exact scanStep_lang_const lang p l

/-- C2 as stated is false on the code: an open failure panics, and the
uncaught panic terminates the whole batch (the second file of the first
batch is never processed); a read error arriving with a partial line
buffered likewise panics and kills the batch; and a read error falling on
a line boundary leaves the record with `scanned = true`, not `false`. -/
theorem C2_counterexample :
    processAll
        [ (("a.go".toList, 5), ⟨true, [], ReadEnd.eof⟩),
          (("b.go".toList, 3), ⟨false, [['x']], ReadEnd.eof⟩) ] = none ∧
      processAll
        [ (("d.go".toList, 6), ⟨false, [['y']], ReadEnd.errMidLine⟩),
          (("b.go".toList, 3), ⟨false, [['x']], ReadEnd.eof⟩) ] = none ∧
      (initFile ("c.go".toList) 4).scan ⟨false, [['x']], ReadEnd.errAtBoundary⟩ =
        ScanOutcome.done
          { path := "c.go".toList, size := 4, lang := langGo, scanned := true,
            lines := 1, comments := 0, blanks := 0, code := 1 } := by decide

/-- C2 amended: for a file that passes the skip checks, an open failure
panics and the uncaught panic terminates the whole run; a read error that
arrives with a partial line buffered is surfaced by the in-loop `Err()`
check as a panic that likewise terminates the run; only a read error
falling exactly on a line boundary is never surfaced — the loop just ends
and the record is completed with `scanned = true` over the delivered
lines, exactly as at end of file. -/
theorem C2_amended_failure_semantics (path : List Char) (size : Nat)
    (ls : List (List Char))
    (hname : (extensionsGet (toLowerStr (pathExt path))).name ≠ [])
    (hsize : size ≠ 0)
    (hraw : (extensionsFind (pathExt path)).isSome = true) :
    (∀ re : ReadEnd,
        (initFile path size).scan ⟨true, ls, re⟩ = ScanOutcome.panicked ∧
          ∀ rest, processAll (((path, size), ⟨true, ls, re⟩) :: rest) = none) ∧
      ((initFile path size).scan ⟨false, ls, ReadEnd.errMidLine⟩ =
          ScanOutcome.panicked ∧
        ∀ rest,
          processAll (((path, size), ⟨false, ls, ReadEnd.errMidLine⟩) :: rest) = none) ∧
      (∀ re : ReadEnd, re ≠ ReadEnd.errMidLine →
        (initFile path size).scan ⟨false, ls, re⟩ =
          ScanOutcome.done
            { (ls.foldl (scanStep (extensionsGet (toLowerStr (pathExt path))))
                (ScanState.NORMAL,
                  { initFile path size with
                      lang := extensionsGet (toLowerStr (pathExt path)) })).2 with
              scanned := true }) := by
  have hpanOpen : ∀ re : ReadEnd,
      (initFile path size).scan ⟨true, ls, re⟩ = ScanOutcome.panicked := by
    intro re
    simp [File.scan, initFile, hname, hsize]
  have hpanMid : (initFile path size).scan ⟨false, ls, ReadEnd.errMidLine⟩ =
      ScanOutcome.panicked := by
    simp [File.scan, initFile, hname, hsize]
  refine ⟨fun re => ⟨hpanOpen re, fun rest => ?_⟩, ⟨hpanMid, fun rest => ?_⟩,
    fun re hre => ?_⟩
  · simp [processAll, hraw, hpanOpen re]
  · simp [processAll, hraw, hpanMid]
  · simp [File.scan, initFile, hname, hsize, hre]

/-- Witness for the amended C2 at a concrete Go file, exercising all three
ways an iteration can end. -/
theorem C2_amended_failure_semantics_witness :
    ((extensionsGet (toLowerStr (pathExt ("a.go".toList)))).name ≠ [] ∧ (5 : Nat) ≠ 0 ∧
        (extensionsFind (pathExt ("a.go".toList))).isSome = true ∧
        ReadEnd.errAtBoundary ≠ ReadEnd.errMidLine) ∧
      ((initFile ("a.go".toList) 5).scan ⟨true, [['x']], ReadEnd.eof⟩ =
          ScanOutcome.panicked ∧
        processAll [(("a.go".toList, 5), ⟨true, [['x']], ReadEnd.eof⟩)] = none) ∧
      ((initFile ("a.go".toList) 5).scan ⟨false, [['x']], ReadEnd.errMidLine⟩ =
          ScanOutcome.panicked ∧
        processAll [(("a.go".toList, 5), ⟨false, [['x']], ReadEnd.errMidLine⟩)] =
          none) ∧
      (initFile ("a.go".toList) 5).scan ⟨false, [['x']], ReadEnd.errAtBoundary⟩ =
        ScanOutcome.done
          { ([['x']].foldl (scanStep (extensionsGet (toLowerStr (pathExt ("a.go".toList)))))
              (ScanState.NORMAL,
                { initFile ("a.go".toList) 5 with
                    lang := extensionsGet (toLowerStr (pathExt ("a.go".toList))) })).2 with
            scanned := true } :=
  have h := C2_amended_failure_semantics ("a.go".toList) 5 [['x']]
    (by decide) (by decide) (by decide)
  ⟨⟨by decide, by decide, by decide, by decide⟩,
    ⟨(h.1 ReadEnd.eof).1, (h.1 ReadEnd.eof).2 []⟩,
    ⟨h.2.1.1, h.2.1.2 []⟩,
    h.2.2 ReadEnd.errAtBoundary (by decide)⟩

/-- C7 as stated is false on the code: `a.GO` has a case variant of the
registered extension `.go`, but the walk filter checks the raw extension,
so the file is never scanned (no record is produced), while `a.go` is. -/
theorem C7_counterexample :
    processAll [(("a.GO".toList, 5), ⟨false, [['x']], ReadEnd.eof⟩)] = some [] ∧
      processAll [(("a.go".toList, 5), ⟨false, [['x']], ReadEnd.eof⟩)] =
        some [{ path := "a.go".toList, size := 5, lang := langGo, scanned := true,
                lines := 1, comments := 0, blanks := 0, code := 1 }] := by decide

/-- C7 amended: `scan` itself resolves the language from the lowercased
extension, so any record it completes carries the rule registered for the
lowercased extension; but the walk-level filter matches the raw extension
against the table, so a candidate file whose raw extension is not an exact
table key is skipped without being scanned. -/
theorem C7_scan_lowercase_walk_raw (p : List Char) (size : Nat) (c : FileContent)
    (f : File) (hdone : (initFile p size).scan c = ScanOutcome.done f) :
    f.lang = extensionsGet (toLowerStr (pathExt p)) ∧
      (extensionsFind (pathExt p) = none →
        ∀ rest, processAll (((p, size), c) :: rest) = processAll rest) := by
  constructor
  · simp only [File.scan] at hdone
    split at hdone
    · cases hdone; rfl
    · split at hdone
      · simp at hdone
      · split at hdone
        · simp at hdone
        · cases hdone
          show (_ : File).lang = _
          rw [show ∀ (x : File), ({ x with scanned := true } : File).lang = x.lang
              from fun _ => rfl]
          rw [scanFold_lang_const]
          simp [initFile]
  · intro hmiss rest
    simp [processAll, hmiss]

/-- Witness for the amended C7 at the case-variant path `a.GO`. -/
theorem C7_scan_lowercase_walk_raw_witness :
    ({ path := "a.GO".toList, size := 5, lang := langGo, scanned := true,
        lines := 1, comments := 0, blanks := 0, code := 1 } : File).lang =
        extensionsGet (toLowerStr (pathExt ("a.GO".toList))) ∧
      (extensionsFind (pathExt ("a.GO".toList)) = none →
        ∀ rest, processAll ((("a.GO".toList, 5), ⟨false, [['x']], ReadEnd.eof⟩) :: rest) =
          processAll rest) :=
  C7_scan_lowercase_walk_raw ("a.GO".toList) 5 ⟨false, [['x']], ReadEnd.eof⟩ _ (by decide)

/-- The rule used to refute C9: its end-of-file marker starts with its
line-comment marker. -/
def langC9cex : Language :=
  ⟨"X".toList, [], [], [], "E".toList, "EOF".toList⟩

/-- The 6-line input of C9 for `langC9cex`: the marker, then 5 non-blank
lines. -/
def linesC9cex : List (List Char) :=
  ["EOF".toList, ['x'], ['x'], ['x'], ['x'], ['x']]

/-- C9 as stated is false on the code: for a rule whose end-of-file marker
starts with the line-comment marker, the marker line is classified as a
line comment instead, the scanner stays NORMAL, and the file yields
`comments = 1, code = 5`, not `comments = 6, code = 0`. -/
theorem C9_counterexample :
    langC9cex.endmark ≠ [] ∧
      linesC9cex.head? = some langC9cex.endmark ∧
      linesC9cex.length = 6 ∧
      linesC9cex.tail.all (fun l => !(trimSpace l).isEmpty) = true ∧
      (runLines langC9cex linesC9cex).2.comments = 1 ∧
      (runLines langC9cex linesC9cex).2.code = 5 ∧
      ¬((runLines langC9cex linesC9cex).2.comments = 6 ∧
        (runLines langC9cex linesC9cex).2.code = 0 ∧
        (runLines langC9cex linesC9cex).2.blanks = 0 ∧
        (runLines langC9cex linesC9cex).2.lines = 6) := by decide

/-- C9 amended: for every rule whose non-empty end-of-file marker is its
own whitespace-trim and is not matched by the line-comment rule, a 6-line
file of the marker followed by 5 non-blank lines yields
`comments = 6, code = 0, blanks = 0, lines = 6`. -/
theorem C9_amended_end_marker_file (lang : Language) (l2 l3 l4 l5 l6 : List Char)
    (hm : lang.endmark ≠ [])
    (ht : trimSpace lang.endmark = lang.endmark)
    (hnc : ¬(hasPrefix lang.endmark lang.comment = true ∧ lang.comment ≠ []))
    (h2 : trimSpace l2 ≠ []) (h3 : trimSpace l3 ≠ []) (h4 : trimSpace l4 ≠ [])
    (h5 : trimSpace l5 ≠ []) (h6 : trimSpace l6 ≠ []) :
    (runLines lang [lang.endmark, l2, l3, l4, l5, l6]).2.comments = 6 ∧
      (runLines lang [lang.endmark, l2, l3, l4, l5, l6]).2.code = 0 ∧
      (runLines lang [lang.endmark, l2, l3, l4, l5, l6]).2.blanks = 0 ∧
      (runLines lang [lang.endmark, l2, l3, l4, l5, l6]).2.lines = 6 := by
  have hnbm : trimSpace lang.endmark ≠ [] := by rw [ht]; exact hm
  have hnc' : ¬(hasPrefix (trimSpace lang.endmark) lang.comment = true ∧
      lang.comment ≠ []) := by
    rw [ht]; exact hnc
  have hpe : hasPrefix (trimSpace lang.endmark) lang.endmark = true := by
    rw [ht]; exact hasPrefix_refl _
  have hstep : scanStep lang (ScanState.NORMAL, initFile [] 1) lang.endmark =
      (ScanState.END, { initFile [] 1 with lines := 1, comments := 1 }) := by
    simp only [scanStep, if_neg hnbm]
    rw [if_neg hnc', if_pos ⟨hpe, hm⟩]
    simp [initFile]
  have e2 : (trimSpace l2).isEmpty = false := by simp [List.isEmpty_iff, h2]
  have e3 : (trimSpace l3).isEmpty = false := by simp [List.isEmpty_iff, h3]
  have e4 : (trimSpace l4).isEmpty = false := by simp [List.isEmpty_iff, h4]
  have e5 : (trimSpace l5).isEmpty = false := by simp [List.isEmpty_iff, h5]
  have e6 : (trimSpace l6).isEmpty = false := by simp [List.isEmpty_iff, h6]
  unfold runLines
  rw [List.foldl_cons, hstep, scanFold_end]
  simp [List.countP_cons, e2, e3, e4, e5, e6, initFile]

/-- Witness for the amended C9 on a Perl-style rule. -/
theorem C9_amended_end_marker_file_witness :
    (( ⟨"Perl".toList, [".pl".toList], "/*".toList, "*/".toList,
          "//".toList, "__END__".toList⟩ : Language).endmark ≠ [] ∧
        trimSpace ("__END__".toList) = "__END__".toList ∧
        trimSpace ("x".toList) ≠ []) ∧
      (runLines ⟨"Perl".toList, [".pl".toList], "/*".toList, "*/".toList,
            "//".toList, "__END__".toList⟩
          ["__END__".toList, "x".toList, "x".toList, "x".toList, "x".toList,
            "x".toList]).2.comments = 6 ∧
      (runLines ⟨"Perl".toList, [".pl".toList], "/*".toList, "*/".toList,
            "//".toList, "__END__".toList⟩
          ["__END__".toList, "x".toList, "x".toList, "x".toList, "x".toList,
            "x".toList]).2.code = 0 ∧
      (runLines ⟨"Perl".toList, [".pl".toList], "/*".toList, "*/".toList,
            "//".toList, "__END__".toList⟩
          ["__END__".toList, "x".toList, "x".toList, "x".toList, "x".toList,
            "x".toList]).2.blanks = 0 ∧
      (runLines ⟨"Perl".toList, [".pl".toList], "/*".toList, "*/".toList,
            "//".toList, "__END__".toList⟩
          ["__END__".toList, "x".toList, "x".toList, "x".toList, "x".toList,
            "x".toList]).2.lines = 6 :=
  ⟨⟨by decide, by decide, by decide⟩,
    C9_amended_end_marker_file _ _ _ _ _ _ (by decide) (by decide) (by decide)
      (by decide) (by decide) (by decide) (by decide) (by decide)⟩

end Codecount
